/-
Verification of the expense-tracker CLI (`Expense-Tracker.py`).

The program keeps a table of expense records (Date, Category, Description,
Amount) in a CSV file, adds records interactively, and computes monthly,
category and daily aggregates with pandas.  This file gives a shallow
embedding of that behaviour:

* a `Frame` models a pandas DataFrame (column labels plus rows of cells);
  a cell (`Value`) is a string, a float (modelled as `ℚ`), a missing value
  (`NaN`), a timestamp, or a month period;
* `save_expenses` / `load_expenses` model `DataFrame.to_csv` /
  `pd.read_csv`, including CSV quoting, the empty-field → NaN conversion
  and the all-numeric-column type inference;
* `add_expense` models the interactive entry flow (strip, default date,
  retry loop on the amount) over an explicit input script, recording the
  file writes it performs;
* the aggregate operations are modelled both as value-level functions on
  well-typed record lists (`monthly_totals`, `category_totals`, the overall
  statistics) and, for the in-place column assignments that
  `monthly_summary` and `plot_daily_trend` perform on the shared DataFrame,
  as `Frame → Option Frame` state transformers.

Floats are modelled as exact rationals: every value the program handles is
produced by parsing a decimal literal, and float arithmetic on the small
ranges involved is exact in the claims considered here.
-/
import Mathlib

namespace ExpenseTracker

/-! ### Characters, digits and numbers -/

/-- Whitespace as stripped by Python's `str.strip` / ignored by `float`. -/
def isSpaceChar (c : Char) : Bool :=
  c = ' ' || c = '\t' || c = '\n' || c = '\x0d' || c = '\x0b' || c = '\x0c'

/-- `str.strip()` on a character list. -/
def trimChars (cs : List Char) : List Char :=
  ((cs.dropWhile isSpaceChar).reverse.dropWhile isSpaceChar).reverse

/-- `str.strip()`. -/
def pyStrip (s : String) : String :=
  String.mk (trimChars s.data)

/-- Base-10 digits of `n`, least significant first (`[]` for `0`);
the first argument is fuel, instantiated with `n` itself. -/
def natDigitsAux : ℕ → ℕ → List ℕ
  | 0, _ => []
  | _ + 1, 0 => []
  | fuel + 1, n + 1 => (n + 1) % 10 :: natDigitsAux fuel ((n + 1) / 10)

/-- Base-10 digits of `n`, least significant first. -/
def natDigits (n : ℕ) : List ℕ :=
  natDigitsAux n n

/-- Value of a big-endian digit-character string, `'0'`-based. -/
def digitsVal (cs : List Char) : ℕ :=
  cs.foldl (fun a c => 10 * a + (c.toNat - 48)) 0

/-- Decimal rendering of a natural number. -/
def renderNat (n : ℕ) : List Char :=
  if n = 0 then ['0'] else ((natDigits n).map Nat.digitChar).reverse

/-- Split a character list at the first `'.'`. -/
def splitDot : List Char → List Char × Option (List Char)
  | [] => ([], none)
  | c :: t =>
    if c = '.' then ([], some t)
    else
      let p := splitDot t
      (c :: p.1, p.2)

/-- Parse an unsigned decimal literal (digits, optionally with one point;
at least one digit overall), exactly as a rational. -/
def parseUnsignedDec (cs : List Char) : Option ℚ :=
  let p := splitDot cs
  match p.2 with
  | none =>
    if p.1 ≠ [] ∧ p.1.all Char.isDigit then some ((digitsVal p.1 : ℕ) : ℚ) else none
  | some fp =>
    if (p.1 ++ fp) ≠ [] ∧ p.1.all Char.isDigit ∧ fp.all Char.isDigit then
      some (((digitsVal p.1 * 10 ^ fp.length + digitsVal fp : ℕ) : ℚ) / ((10 : ℚ) ^ fp.length))
    else none

/-- Parse a signed decimal literal: the numeric core of Python's `float`
and of the numeric cells recognised by `pd.read_csv`. -/
def parseNumber (cs : List Char) : Option ℚ :=
  match cs with
  | [] => none
  | c :: t =>
    if c = '-' then (parseUnsignedDec t).map Neg.neg
    else if c = '+' then parseUnsignedDec t
    else parseUnsignedDec (c :: t)

/-- `float(s)`: surrounding whitespace is ignored. -/
def pyFloat (s : String) : Option ℚ :=
  parseNumber (trimChars s.data)

/-- Least `e` with `den ∣ 10 ^ e`, if one exists below the search bound.
Succeeds exactly on denominators of the form `2 ^ a * 5 ^ b`; every float
has such a denominator. -/
def decExp (den : ℕ) : Option ℕ :=
  (List.range (den + 1)).find? fun e => 10 ^ e % den = 0

/-- `q` has a finite decimal expansion. -/
def IsDecimal (q : ℚ) : Prop :=
  (decExp q.den).isSome

instance (q : ℚ) : Decidable (IsDecimal q) := by
  unfold IsDecimal; infer_instance

/-- Decimal rendering of a rational with a finite decimal expansion, in the
style of `repr` on a Python float: a sign, an integer part, a point, and at
least one fractional digit (`10 → "10.0"`).  (Fallback `"0"` on rationals
that are not finite decimals; floats never produce such a value.) -/
def renderDec (q : ℚ) : List Char :=
  match decExp q.den with
  | none => ['0']
  | some e =>
    let e' := max e 1
    let m := q.num.natAbs * 10 ^ e' / q.den
    let pd := natDigits m ++ List.replicate (e' + 1 - (natDigits m).length) 0
    (if q.num < 0 then ['-'] else []) ++
      ((pd.drop e').map Nat.digitChar).reverse ++ '.' ::
        ((pd.take e').map Nat.digitChar).reverse

/-- Round to two decimals and render, as Python's `f"{x:.2f}"` does for the
overall statistics. -/
def format2 (q : ℚ) : List Char :=
  let n := round (q * 100)
  (if n < 0 then ['-'] else []) ++
    renderNat (n.natAbs / 100) ++ '.' ::
      (if n.natAbs % 100 < 10 then '0' :: renderNat (n.natAbs % 100)
       else renderNat (n.natAbs % 100))

/-! ### CSV serialisation (the format written by `to_csv` / read by `read_csv`) -/

/-- A field must be quoted if it contains the delimiter, a quote, or a line
break. -/
def needsQuote (cs : List Char) : Bool :=
  cs.any fun c => c = ',' || c = '"' || c = '\n' || c = '\x0d'

/-- Double every quote character (the escaping used inside quoted fields). -/
def dupQuotes : List Char → List Char
  | [] => []
  | c :: t => if c = '"' then '"' :: '"' :: dupQuotes t else c :: dupQuotes t

/-- Serialise one CSV field, quoting when needed. -/
def escField (cs : List Char) : List Char :=
  if needsQuote cs then '"' :: (dupQuotes cs ++ ['"']) else cs

/-- Join fields with the `,` delimiter. -/
def joinComma : List (List Char) → List Char
  | [] => []
  | [f] => f
  | f :: t => f ++ ',' :: joinComma t

/-- Read an unquoted field up to the next delimiter; returns the field and,
when a delimiter was found, the rest of the line after it. -/
def parseUnquoted : List Char → List Char × Option (List Char)
  | [] => ([], none)
  | c :: t =>
    if c = ',' then ([], some t)
    else
      let p := parseUnquoted t
      (c :: p.1, p.2)

/-- Read the body of a quoted field (the opening quote already consumed).
`none` on a malformed field (unterminated quote, or a stray character after
the closing quote). -/
def parseQuoted : List Char → Option (List Char × Option (List Char))
  | [] => none
  | c :: t =>
    if c = '"' then
      match t with
      | [] => some ([], none)
      | c2 :: t2 =>
        if c2 = ',' then some ([], some t2)
        else if c2 = '"' then (parseQuoted t2).map fun p => ('"' :: p.1, p.2)
        else none
    else (parseQuoted t).map fun p => (c :: p.1, p.2)

/-- Read one CSV field. -/
def parseField (cs : List Char) : Option (List Char × Option (List Char)) :=
  match cs with
  | [] => some (parseUnquoted [])
  | c :: t => if c = '"' then parseQuoted t else some (parseUnquoted (c :: t))

/-- Split one CSV line into its fields (fuelled; the fuel is instantiated
with the length of the line plus one, which always suffices). -/
def parseLineAux : ℕ → List Char → Option (List (List Char))
  | 0, _ => none
  | fuel + 1, cs =>
    match parseField cs with
    | none => none
    | some (f, none) => some [f]
    | some (f, some r) => (parseLineAux fuel r).map (f :: ·)

/-- Split one CSV line into its fields. -/
def parseLine (cs : List Char) : Option (List (List Char)) :=
  parseLineAux (cs.length + 1) cs

/-- `Option`-valued traversal (all-or-nothing). -/
def mapOption (f : α → Option β) : List α → Option (List β)
  | [] => some []
  | a :: t =>
    match f a, mapOption f t with
    | some b, some bs => some (b :: bs)
    | _, _ => none

/-! ### Data model: cells, frames, records -/

/-- A DataFrame cell: a string, a float (exact rational), a missing value,
a `Timestamp` (year, month, day), or a month `Period`. -/
inductive Value
  | s (v : String)
  | q (v : ℚ)
  | nan
  | ts (y m d : ℕ)
  | per (y m : ℕ)
deriving DecidableEq, Repr

/-- A pandas DataFrame: column labels and rows of cells. -/
structure Frame where
  cols : List String
  rows : List (List Value)
deriving DecidableEq, Repr

/-- The fixed schema `COLUMNS = ["Date", "Category", "Description", "Amount"]`. -/
def COLUMNS : List String :=
  ["Date", "Category", "Description", "Amount"]

/-- A well-typed expense record, as produced by `add_expense` and as the
summary operations consume the table. -/
structure Record where
  date : String
  category : String
  description : String
  amount : ℚ
deriving DecidableEq, Repr

/-- The frame row corresponding to a record. -/
def Record.toRow (r : Record) : List Value :=
  [.s r.date, .s r.category, .s r.description, .q r.amount]

/-- The frame holding a list of records. -/
def frameOf (t : List Record) : Frame :=
  ⟨COLUMNS, t.map Record.toRow⟩

/-! ### Record Store: `save_expenses` / `load_expenses` -/

/-- How `to_csv` prints one cell: strings verbatim, floats in decimal,
missing values as the empty field, timestamps and periods in ISO form. -/
def renderCell : Value → List Char
  | .s v => v.data
  | .q v => renderDec v
  | .nan => []
  | .ts y m d =>
    renderNat y ++ '-' :: (if m < 10 then '0' :: renderNat m else renderNat m) ++
      '-' :: (if d < 10 then '0' :: renderNat d else renderNat d)
  | .per y m => renderNat y ++ '-' :: (if m < 10 then '0' :: renderNat m else renderNat m)

/-- `df.to_csv(DATA_FILE, index=False)`: a header line with the column
labels followed by one CSV line per row.  The result is the new content of
the persistent file. -/
def save_expenses (f : Frame) : List String :=
  String.mk (joinComma (f.cols.map fun c => escField c.data)) ::
    f.rows.map fun r => String.mk (joinComma (r.map fun v => escField (renderCell v)))

/-- `read_csv` treats an empty field as missing. -/
def naLike (cs : List Char) : Bool :=
  cs.isEmpty

/-- A raw cell read back by `read_csv`: empty fields become `NaN`; in a
column whose cells all parse as numbers the cell becomes a float; otherwise
it stays a string. -/
def loadCell (numericCol : Bool) (cs : List Char) : Value :=
  if naLike cs then .nan
  else if numericCol then
    match parseNumber cs with
    | some q => .q q
    | none => .s (String.mk cs)
  else .s (String.mk cs)

/-- `read_csv` column type inference over the raw fields of all rows. -/
def loadRows (ncols : ℕ) (rows : List (List (List Char))) : List (List Value) :=
  let flags := (List.range ncols).map fun j =>
    rows.all fun r => naLike (r.getD j []) || (parseNumber (r.getD j [])).isSome
  rows.map fun r => List.zipWith loadCell flags r

/-- Bring one raw row to the expected width `w`, then keep the last `ncols`
fields: `read_csv` pads missing trailing fields (they load as `NaN`), and
in index mode (`w = ncols + 1`) the first field of each row is consumed as
the row's index and does not appear in the columns. -/
def normalizeRow (ncols w : ℕ) (r : List (List Char)) : List (List Char) :=
  (r ++ List.replicate (w - r.length) []).drop (w - ncols)

/-- Assemble the frame from the parsed header and the parsed data rows,
the way `read_csv` does: blank lines are skipped; the expected row width
is the header width, or one more when the first data row has exactly one
extra field (`read_csv` then uses the first column as the index, so that
field does not reach the columns); a row wider than expected is a parse
error; shorter rows are padded with missing values. -/
def buildFrame (cols : List (List Char)) (rows0 : List (List (List Char))) :
    Except String Frame :=
  let rows := rows0.filter fun r => r ≠ [[]]
  let w := if (rows.headD []).length = cols.length + 1 then cols.length + 1
           else cols.length
  if rows.all fun r => r.length ≤ w then
    .ok ⟨cols.map String.mk, loadRows cols.length (rows.map (normalizeRow cols.length w))⟩
  else .error "ParserError"

/-- `load_expenses()`: `pd.read_csv(DATA_FILE)` with the missing file
handled as the empty table over the fixed schema.  `none` models an absent
file.  An empty file or an unparseable line is a parse error, which the
program does not catch. -/
def load_expenses (file : Option (List String)) : Except String Frame :=
  match file with
  | none => .ok ⟨COLUMNS, []⟩
  | some [] => .error "EmptyDataError"
  | some (h :: rest) =>
    match parseLine h.data with
    | none => .error "ParserError"
    | some cols =>
      match mapOption (fun ln => parseLine ln.data) rest with
      | none => .error "ParserError"
      | some rows => buildFrame cols rows

/-! ### Entry Collector: `add_expense` -/

/-- The interactive inputs consumed by one run of `add_expense`: the date,
category and description answers, and the successive answers to the
`Amount` prompt (re-asked until one parses). -/
structure AddInput where
  dateStr : String
  categoryStr : String
  descriptionStr : String
  amountStrs : List String
deriving Repr

/-- The amount retry loop: the first input accepted by `float`.  `none`
models the loop never terminating (no valid amount is ever entered). -/
def firstFloat : List String → Option ℚ
  | [] => none
  | s :: t =>
    match pyFloat s with
    | some q => some q
    | none => firstFloat t

/-- `datetime.today().strftime("%Y-%m-%d")` for a given current date. -/
def formatDate (today : ℕ × ℕ × ℕ) : String :=
  String.mk (renderNat today.1 ++ '-' ::
    (if today.2.1 < 10 then '0' :: renderNat today.2.1 else renderNat today.2.1) ++
      '-' :: (if today.2.2 < 10 then '0' :: renderNat today.2.2 else renderNat today.2.2))

/-- The record built from the stripped inputs, with today's date substituted
when the stripped date answer is empty. -/
def newRecord (today : ℕ × ℕ × ℕ) (inp : AddInput) (amount : ℚ) : Record :=
  { date := if pyStrip inp.dateStr = "" then formatDate today else pyStrip inp.dateStr
    category := pyStrip inp.categoryStr
    description := pyStrip inp.descriptionStr
    amount := amount }

/-- The observable outcome of `add_expense`: the table it returns and the
list of full-table file writes it performed itself (via `save_expenses`). -/
structure AddOutcome where
  table : List Record
  savedTables : List (List Record)
deriving Repr

/-- `add_expense(df)`: strip the three text answers, default the date,
retry the amount until it parses, append the new row, and save the
resulting table to the file before returning it.  `none` models the
non-terminating retry loop. -/
def add_expense (today : ℕ × ℕ × ℕ) (df : List Record) (inp : AddInput) :
    Option AddOutcome :=
  (firstFloat inp.amountStrs).map fun amount =>
    let df2 := df ++ [newRecord today inp amount]
    { table := df2, savedTables := [df2] }

/-! ### Aggregator -/

/-- First-occurrence deduplication (the distinct keys of a grouping), with
an accumulator of keys already seen. -/
def dedupAux [DecidableEq κ] : List κ → List κ → List κ
  | _, [] => []
  | seen, k :: t => if k ∈ seen then dedupAux seen t else k :: dedupAux (k :: seen) t

/-- The distinct keys of a list, first occurrences first. -/
def dedupKeys [DecidableEq κ] (l : List κ) : List κ :=
  dedupAux [] l

/-- `groupby(key)["Amount"].sum()` over key/amount pairs, evaluated at a
given list of distinct keys. -/
def groupSum [DecidableEq κ] (ps : List (κ × ℚ)) (ks : List κ) : List (κ × ℚ) :=
  ks.map fun k => (k, ((ps.filter fun p => p.1 = k).map Prod.snd).sum)

/-- `pd.to_datetime` on the ISO dates the program writes: `YYYY-MM-DD` with
numeric components and valid month/day ranges. -/
def parseDate (s : String) : Option (ℕ × ℕ × ℕ) :=
  match (s.data.splitOn '-').map (fun g => (g, digitsVal g)) with
  | [(ys, y), (ms, m), (ds, d)] =>
    if ys ≠ [] ∧ ys.all Char.isDigit ∧ ms ≠ [] ∧ ms.all Char.isDigit ∧
        ds ≠ [] ∧ ds.all Char.isDigit ∧ 1 ≤ m ∧ m ≤ 12 ∧ 1 ≤ d ∧ d ≤ 31 then
      some (y, m, d)
    else none
  | _ => none

/-- Chronological order on `(year, month)` periods. -/
def periodLe (a b : ℕ × ℕ) : Prop :=
  a.1 < b.1 ∨ (a.1 = b.1 ∧ a.2 ≤ b.2)

instance : DecidableRel periodLe := fun a b => by
  unfold periodLe; infer_instance

/-- Descending order by total on category/total pairs. -/
def totalGe (a b : String × ℚ) : Prop :=
  b.2 ≤ a.2

instance : DecidableRel totalGe := fun a b => by
  unfold totalGe; infer_instance

instance : IsTotal (String × ℚ) totalGe :=
  ⟨fun a b => (le_total b.2 a.2).imp id id⟩

instance : IsTrans (String × ℚ) totalGe :=
  ⟨fun _ _ _ h1 h2 => le_trans h2 h1⟩

/-- `monthly_summary`'s grouping: convert each date to its `(year, month)`
period, then total the amounts per period, periods in chronological order
(`groupby` sorts its keys).  `none` when some date fails to parse, in which
case the original raises. -/
def monthly_totals (t : List Record) : Option (List ((ℕ × ℕ) × ℚ)) :=
  (mapOption (fun r => (parseDate r.date).map fun ymd => ((ymd.1, ymd.2.1), r.amount)) t).map
    fun ps => groupSum ps (List.insertionSort periodLe (dedupKeys (ps.map Prod.fst)))

/-- `plot_by_category`'s grouping: total the amounts per exact category
string, sorted descending by total (`sort_values(ascending=False)`). -/
def category_totals (t : List Record) : List (String × ℚ) :=
  List.insertionSort totalGe
    (groupSum (t.map fun r => (r.category, r.amount))
      (dedupKeys (t.map Record.category)))

/-- `plot_daily_trend`'s grouping: total the amounts per parsed date, dates
in chronological order. -/
def daily_totals (t : List Record) : Option (List ((ℕ × ℕ × ℕ) × ℚ)) :=
  (mapOption (fun r => (parseDate r.date).map fun ymd => (ymd, r.amount)) t).map
    fun ps =>
      groupSum ps (List.insertionSort
        (fun a b => periodLe (a.1, a.2.1) (b.1, b.2.1) ∧ (a.1, a.2.1) ≠ (b.1, b.2.1) ∨
          (a.1, a.2.1) = (b.1, b.2.1) ∧ a.2.2 ≤ b.2.2)
        (dedupKeys (ps.map Prod.fst)))

/-- `df["Amount"].values.sum()`. -/
def totalSpent (t : List Record) : ℚ :=
  (t.map Record.amount).sum

/-- `np.mean` of the amounts. -/
def meanSpent (t : List Record) : ℚ :=
  totalSpent t / (t.length : ℚ)

/-- `np.max` of the amounts (junk `0` on the empty table, on which the
original raises; `monthly_summary` only reaches it on non-empty tables). -/
def maxSpent (t : List Record) : ℚ :=
  match t with
  | [] => 0
  | r :: rest => rest.foldl (fun a x => max a x.amount) r.amount

/-- `np.min` of the amounts (same empty-table caveat as `maxSpent`). -/
def minSpent (t : List Record) : ℚ :=
  match t with
  | [] => 0
  | r :: rest => rest.foldl (fun a x => min a x.amount) r.amount

/-! ### Presenter-visible outputs of `view_expenses` and `monthly_summary` -/

/-- What `view_expenses` prints: the no-data message or the last `n` rows. -/
inductive ViewOutput
  | noExpenses
  | lastRows (rows : List Record)
deriving DecidableEq, Repr

/-- `view_expenses(df, n)`: empty table → "No expenses recorded yet.";
otherwise `df.tail(n)` in insertion order; `n` defaults to `10` at the call
site in `main`. -/
def view_expenses (df : List Record) (n : ℕ) : ViewOutput :=
  if df.isEmpty then .noExpenses else .lastRows (df.drop (df.length - n))

/-- The overall statistics block of `monthly_summary`. -/
structure Stats where
  total : ℚ
  average : ℚ
  maxSpend : ℚ
  minSpend : ℚ
deriving DecidableEq, Repr

/-- What `monthly_summary` prints: the no-data message, a date-parse
failure (uncaught exception), or the monthly totals plus overall stats. -/
inductive SummaryOutput
  | noData
  | dateError
  | report (monthly : List ((ℕ × ℕ) × ℚ)) (stats : Stats)
deriving DecidableEq, Repr

/-- The output of `monthly_summary(df)`: the empty check comes first, so no
statistics are computed on an empty table. -/
def monthly_summary (df : List Record) : SummaryOutput :=
  if df.isEmpty then .noData
  else
    match monthly_totals df with
    | none => .dateError
    | some m => .report m ⟨totalSpent df, meanSpent df, maxSpent df, minSpent df⟩

/-! ### The in-place DataFrame mutations of the summary operations -/

/-- `df[c] = vals` on a frame: overwrite the column if the label exists,
append a new column otherwise. -/
def Frame.assignCol (f : Frame) (c : String) (vals : List Value) : Frame :=
  if c ∈ f.cols then
    ⟨f.cols, (f.rows.zip vals).map fun rv => rv.1.set (f.cols.indexOf c) rv.2⟩
  else
    ⟨f.cols ++ [c], (f.rows.zip vals).map fun rv => rv.1 ++ [rv.2]⟩

/-- `df[c]` on a frame. -/
def Frame.getCol (f : Frame) (c : String) : List Value :=
  f.rows.map fun r => r.getD (f.cols.indexOf c) (.s "")

/-- `pd.to_datetime` on one cell: parse a string date, keep a timestamp,
fail on anything else. -/
def toDatetimeValue : Value → Option Value
  | .s str => (parseDate str).map fun ymd => .ts ymd.1 ymd.2.1 ymd.2.2
  | .ts y m d => some (.ts y m d)
  | _ => none

/-- `.dt.to_period("M")` on one cell. -/
def toPeriodValue : Value → Option Value
  | .ts y m _ => some (.per y m)
  | _ => none

/-- The effect of `monthly_summary(df)` on the shared frame: on a non-empty
table it overwrites `Date` with parsed datetimes and adds a `YearMonth`
period column (`none` when a date fails to parse and the call raises). -/
def monthlySummaryMutate (f : Frame) : Option Frame :=
  if f.rows.isEmpty then some f
  else do
    let dates ← mapOption toDatetimeValue (f.getCol "Date")
    let f1 := f.assignCol "Date" dates
    let yms ← mapOption toPeriodValue dates
    some (f1.assignCol "YearMonth" yms)

/-- The effect of `plot_daily_trend(df)` on the shared frame: on a
non-empty table it overwrites `Date` with parsed datetimes. -/
def plotDailyTrendMutate (f : Frame) : Option Frame :=
  if f.rows.isEmpty then some f
  else (mapOption toDatetimeValue (f.getCol "Date")).map fun ds => f.assignCol "Date" ds

/-- The effect of `plot_by_category(df)` on the shared frame: it only reads
(`groupby` and `sort_values` return new objects), so the frame is returned
unchanged. -/
def plotByCategoryMutate (f : Frame) : Frame :=
  f

instance {ε α : Type _} [DecidableEq ε] [DecidableEq α] : DecidableEq (Except ε α) :=
  fun x y =>
  match x, y with
  | .ok a, .ok b =>
    if h : a = b then isTrue (by rw [h]) else
      isFalse (by intro hxy; cases hxy; exact h rfl)
  | .error a, .error b =>
    if h : a = b then isTrue (by rw [h]) else
      isFalse (by intro hxy; cases hxy; exact h rfl)
  | .ok _, .error _ => isFalse (by intro hxy; cases hxy)
  | .error _, .ok _ => isFalse (by intro hxy; cases hxy)

/-- A frame row of the shape the program's tables always have: three
string cells and a float amount with a finite decimal expansion. -/
def isRecordRow (row : List Value) : Bool :=
  match row with
  | [.s _, .s _, .s _, .q q] => decide (IsDecimal q)
  | _ => false

/-- A single sample record, used for concrete instantiations. -/
def lunchRecord : Record :=
  { date := "2024-01-05", category := "Food", description := "Lunch", amount := 10 }

/-- The worked scenario table from the specification. -/
def scenarioTable : List Record :=
  [{ date := "2024-01-05", category := "Food", description := "Lunch", amount := 10 },
   { date := "2024-01-20", category := "Food", description := "Dinner", amount := 15 },
   { date := "2024-02-01", category := "Travel", description := "Taxi", amount := 30 }]

/-! ### Lemmas: digits and decimal round-trips -/

theorem natDigitsAux_ofDigits :
    ∀ fuel n, n ≤ fuel → Nat.ofDigits 10 (natDigitsAux fuel n) = n := by
  intro fuel
  induction fuel with
  | zero => intro n hn; interval_cases n; simp [natDigitsAux]
  | succ f ih =>
    intro n hn
    match n with
    | 0 => simp [natDigitsAux]
    | n + 1 =>
      rw [natDigitsAux, Nat.ofDigits_cons, ih ((n + 1) / 10) ?_]
      · omega
      · omega

theorem ofDigits_natDigits (n : ℕ) : Nat.ofDigits 10 (natDigits n) = n :=
  natDigitsAux_ofDigits n n le_rfl

theorem natDigitsAux_lt :
    ∀ fuel n, ∀ d ∈ natDigitsAux fuel n, d < 10 := by
  intro fuel
  induction fuel with
  | zero => intro n d hd; simp [natDigitsAux] at hd
  | succ f ih =>
    intro n d hd
    match n with
    | 0 => simp [natDigitsAux] at hd
    | n + 1 =>
      rw [natDigitsAux] at hd
      rcases List.mem_cons.mp hd with h | h
      · omega
      · exact ih _ _ h

theorem natDigits_lt (n : ℕ) : ∀ d ∈ natDigits n, d < 10 :=
  natDigitsAux_lt n n

theorem digitChar_isDigit {d : ℕ} (h : d < 10) : (Nat.digitChar d).isDigit = true := by
  interval_cases d <;> decide

theorem digitChar_toNat {d : ℕ} (h : d < 10) : (Nat.digitChar d).toNat - 48 = d := by
  interval_cases d <;> decide

theorem digitChar_ne_dot {d : ℕ} (h : d < 10) : Nat.digitChar d ≠ '.' := by
  interval_cases d <;> decide

theorem digitChar_ne_dash {d : ℕ} (h : d < 10) : Nat.digitChar d ≠ '-' := by
  interval_cases d <;> decide

theorem digitChar_ne_plus {d : ℕ} (h : d < 10) : Nat.digitChar d ≠ '+' := by
  interval_cases d <;> decide

theorem foldl_digits_rev (step : ℕ → Char → ℕ)
    (hstep : ∀ a c, step a c = 10 * a + (c.toNat - 48)) :
    ∀ (ds : List ℕ), (∀ d ∈ ds, d < 10) → ∀ acc,
      ((ds.map Nat.digitChar).reverse).foldl step acc =
        acc * 10 ^ ds.length + Nat.ofDigits 10 ds := by
  intro ds
  induction ds with
  | nil => intro _ acc; simp [Nat.ofDigits_nil]
  | cons d t ih =>
    intro hlt acc
    have hd : d < 10 := hlt d (List.mem_cons_self d t)
    have ht : ∀ x ∈ t, x < 10 := fun x hx => hlt x (List.mem_cons_of_mem d hx)
    simp only [List.map_cons, List.reverse_cons, List.foldl_append, List.foldl_cons,
      List.foldl_nil, ih ht acc, hstep, Nat.ofDigits_cons, digitChar_toNat hd,
      List.length_cons]
    ring

theorem digitsVal_digits (ds : List ℕ) (h : ∀ d ∈ ds, d < 10) :
    digitsVal ((ds.map Nat.digitChar).reverse) = Nat.ofDigits 10 ds := by
  unfold digitsVal
  rw [foldl_digits_rev _ (fun a c => rfl) ds h 0]
  simp

theorem splitDot_not_mem : ∀ a : List Char, '.' ∉ a → splitDot a = (a, none) := by
  intro a
  induction a with
  | nil => intro _; rfl
  | cons c t ih =>
    intro h
    have hc : c ≠ '.' := fun hc => h (hc ▸ List.mem_cons_self c t)
    have ht : '.' ∉ t := fun ht => h (List.mem_cons_of_mem c ht)
    simp [splitDot, hc, ih ht]

theorem splitDot_append (b : List Char) :
    ∀ a : List Char, '.' ∉ a → splitDot (a ++ '.' :: b) = (a, some b) := by
  intro a
  induction a with
  | nil => intro _; simp [splitDot]
  | cons c t ih =>
    intro h
    have hc : c ≠ '.' := fun hc => h (hc ▸ List.mem_cons_self c t)
    have ht : '.' ∉ t := fun ht => h (List.mem_cons_of_mem c ht)
    simp [splitDot, hc, ih ht]

theorem ofDigits_replicate_zero (k : ℕ) : Nat.ofDigits 10 (List.replicate k 0) = 0 := by
  induction k with
  | zero => rfl
  | succ n ih => simp [List.replicate_succ, Nat.ofDigits_cons, ih]

theorem parseNumber_cons (c : Char) (t : List Char) (h1 : c ≠ '-') (h2 : c ≠ '+') :
    parseNumber (c :: t) = parseUnsignedDec (c :: t) := by
  simp [parseNumber, h1, h2]

/-- The decimal rendering of a finite-decimal rational parses back to
exactly the same rational: the numeric kernel of the save/load round-trip. -/
theorem parseNumber_renderDec (q : ℚ) (h : IsDecimal q) :
    parseNumber (renderDec q) = some q := by
  obtain ⟨e, he⟩ := Option.isSome_iff_exists.mp h
  have hmod : 10 ^ e % q.den = 0 := by
    have := List.find?_some he
    exact of_decide_eq_true this
  have hdvd : q.den ∣ 10 ^ e := Nat.dvd_of_mod_eq_zero hmod
  set e' := max e 1 with he'
  have hdvd' : q.den ∣ 10 ^ e' := hdvd.trans (pow_dvd_pow 10 (le_max_left e 1))
  set m := q.num.natAbs * 10 ^ e' / q.den with hm_def
  have hm : m * q.den = q.num.natAbs * 10 ^ e' :=
    Nat.div_mul_cancel (hdvd'.mul_left q.num.natAbs)
  set pd := natDigits m ++ List.replicate (e' + 1 - (natDigits m).length) 0 with hpd
  have hlen : e' + 1 ≤ pd.length := by
    simp only [hpd, List.length_append, List.length_replicate]
    omega
  have hdig : ∀ d ∈ pd, d < 10 := by
    intro d hd
    rcases List.mem_append.mp hd with h' | h'
    · exact natDigits_lt m d h'
    · have := List.eq_of_mem_replicate h'
      omega
  have hofd : Nat.ofDigits 10 pd = m := by
    rw [hpd, Nat.ofDigits_append, ofDigits_natDigits, ofDigits_replicate_zero]
    ring
  have hdig_take : ∀ d ∈ pd.take e', d < 10 := fun d hd => hdig d (List.mem_of_mem_take hd)
  have hdig_drop : ∀ d ∈ pd.drop e', d < 10 := fun d hd => hdig d (List.mem_of_mem_drop hd)
  set fracBE := ((pd.take e').map Nat.digitChar).reverse with hfrac
  set intBE := ((pd.drop e').map Nat.digitChar).reverse with hint
  have hfrac_len : fracBE.length = e' := by
    simp only [hfrac, List.length_reverse, List.length_map, List.length_take]
    omega
  have hfrac_ne : fracBE ≠ [] := by
    intro hnil
    have := hfrac_len
    rw [hnil] at this
    simp at this
    omega
  have hall_frac : fracBE.all Char.isDigit = true := by
    rw [List.all_eq_true]
    intro c hc
    rw [hfrac, List.mem_reverse, List.mem_map] at hc
    obtain ⟨d, hd, rfl⟩ := hc
    exact digitChar_isDigit (hdig_take d hd)
  have hall_int : intBE.all Char.isDigit = true := by
    rw [List.all_eq_true]
    intro c hc
    rw [hint, List.mem_reverse, List.mem_map] at hc
    obtain ⟨d, hd, rfl⟩ := hc
    exact digitChar_isDigit (hdig_drop d hd)
  have hdot_int : '.' ∉ intBE := by
    intro hc
    rw [hint, List.mem_reverse, List.mem_map] at hc
    obtain ⟨d, hd, hdc⟩ := hc
    exact digitChar_ne_dot (hdig_drop d hd) hdc
  have hsplit : splitDot (intBE ++ '.' :: fracBE) = (intBE, some fracBE) :=
    splitDot_append fracBE intBE hdot_int
  have hvals : digitsVal intBE * 10 ^ fracBE.length + digitsVal fracBE = m := by
    rw [hint, hfrac, digitsVal_digits _ hdig_drop, digitsVal_digits _ hdig_take,
      hfrac_len]
    have h1 := @Nat.ofDigits_append 10 (pd.take e') (pd.drop e')
    rw [List.take_append_drop] at h1
    rw [hofd] at h1
    have hlen_take : (pd.take e').length = e' := by
      simp only [List.length_take]
      omega
    rw [hlen_take, Nat.mul_comm] at h1
    omega
  have hq_val : (((digitsVal intBE * 10 ^ fracBE.length + digitsVal fracBE : ℕ) : ℚ) /
      ((10 : ℚ) ^ fracBE.length)) = |q| := by
    rw [hvals, hfrac_len]
    have hden : (q.den : ℚ) ≠ 0 := by
      exact_mod_cast q.den_nz
    have hQ : (m : ℚ) * q.den = (q.num.natAbs : ℚ) * 10 ^ e' := by
      exact_mod_cast congrArg (Nat.cast : ℕ → ℚ) hm
    have habs : |q| = (q.num.natAbs : ℚ) / q.den := by
      rcases le_or_lt 0 q with hq | hq
      · rw [abs_of_nonneg hq]
        have h2 : (q.num.natAbs : ℚ) = (q.num : ℚ) := by
          rw [Int.cast_natAbs]
          exact_mod_cast abs_of_nonneg (Rat.num_nonneg.mpr hq)
        rw [h2, Rat.num_div_den]
      · rw [abs_of_neg hq]
        have h2 : (q.num.natAbs : ℚ) = -(q.num : ℚ) := by
          rw [Int.cast_natAbs]
          exact_mod_cast abs_of_neg (Rat.num_neg.mpr hq)
        rw [h2, neg_div, Rat.num_div_den]
    rw [habs]
    rw [div_eq_div_iff (by positivity) (by positivity)]
    push_cast at hQ ⊢
    linarith [hQ]
  have hparse_uns : parseUnsignedDec (intBE ++ '.' :: fracBE) = some |q| := by
    unfold parseUnsignedDec
    rw [hsplit]
    simp only
    rw [if_pos ⟨by simp [hfrac_ne], hall_int, hall_frac⟩]
    rw [hq_val]
  have hrender : renderDec q =
      (if q.num < 0 then ['-'] else []) ++ intBE ++ '.' :: fracBE := by
    unfold renderDec
    rw [he]
  rcases lt_or_le q.num 0 with hneg | hpos
  · rw [hrender, if_pos hneg]
    simp only [List.cons_append, List.nil_append, List.singleton_append]
    have : parseNumber ('-' :: (intBE ++ '.' :: fracBE)) =
        (parseUnsignedDec (intBE ++ '.' :: fracBE)).map Neg.neg := by
      simp [parseNumber]
    rw [this, hparse_uns]
    simp only [Option.map_some']
    congr 1
    rw [abs_of_neg (by exact_mod_cast Rat.num_neg.mp hneg : q < 0)]
    ring
  · rw [hrender, if_neg (not_lt.mpr hpos)]
    simp only [List.nil_append]
    obtain ⟨c, t, hct⟩ : ∃ c t, intBE ++ '.' :: fracBE = c :: t := by
      cases h' : intBE ++ '.' :: fracBE with
      | nil => simp at h'
      | cons c t => exact ⟨c, t, rfl⟩
    have hsign : c ≠ '-' ∧ c ≠ '+' := by
      rcases h' : intBE with _ | ⟨c0, t0⟩
      · rw [h'] at hct
        simp only [List.nil_append, List.cons.injEq] at hct
        rw [← hct.1]
        exact ⟨by decide, by decide⟩
      · rw [h'] at hct
        simp only [List.cons_append, List.cons.injEq] at hct
        have hc0 : c0 ∈ intBE := h' ▸ List.mem_cons_self c0 t0
        rw [hint, List.mem_reverse, List.mem_map] at hc0
        obtain ⟨d, hd, hdc⟩ := hc0
        rw [← hct.1, ← hdc]
        exact ⟨digitChar_ne_dash (hdig_drop d hd), digitChar_ne_plus (hdig_drop d hd)⟩
    rw [hct, parseNumber_cons c t hsign.1 hsign.2, ← hct, hparse_uns,
      abs_of_nonneg (Rat.num_nonneg.mp hpos)]

/-! ### Lemmas: CSV round-trip -/

theorem parseUnquoted_no_comma : ∀ f : List Char, ',' ∉ f → parseUnquoted f = (f, none) := by
  intro f
  induction f with
  | nil => intro _; rfl
  | cons c t ih =>
    intro h
    have hc : c ≠ ',' := fun hc => h (hc ▸ List.mem_cons_self c t)
    have ht : ',' ∉ t := fun ht => h (List.mem_cons_of_mem c ht)
    simp [parseUnquoted, hc, ih ht]

theorem parseUnquoted_append (r : List Char) :
    ∀ f : List Char, ',' ∉ f → parseUnquoted (f ++ ',' :: r) = (f, some r) := by
  intro f
  induction f with
  | nil => intro _; simp [parseUnquoted]
  | cons c t ih =>
    intro h
    have hc : c ≠ ',' := fun hc => h (hc ▸ List.mem_cons_self c t)
    have ht : ',' ∉ t := fun ht => h (List.mem_cons_of_mem c ht)
    simp [parseUnquoted, hc, ih ht]

theorem dupQuotes_cons_quote (t : List Char) :
    dupQuotes ('"' :: t) = '"' :: '"' :: dupQuotes t := by
  simp [dupQuotes]

theorem dupQuotes_cons_ne (c : Char) (t : List Char) (hc : c ≠ '"') :
    dupQuotes (c :: t) = c :: dupQuotes t := by
  simp [dupQuotes, hc]

theorem parseQuoted_cons_ne (c : Char) (l : List Char) (hc : c ≠ '"') :
    parseQuoted (c :: l) = (parseQuoted l).map fun p => (c :: p.1, p.2) := by
  rw [parseQuoted.eq_def]
  simp only [if_neg hc]

theorem parseQuoted_quote_quote (l : List Char) :
    parseQuoted ('"' :: '"' :: l) = (parseQuoted l).map fun p => ('"' :: p.1, p.2) := by
  rw [parseQuoted.eq_def]
  simp

theorem parseQuoted_dup_end : ∀ f : List Char,
    parseQuoted (dupQuotes f ++ ['"']) = some (f, none) := by
  intro f
  induction f with
  | nil => rfl
  | cons c t ih =>
    by_cases hc : c = '"'
    · subst hc
      rw [dupQuotes_cons_quote, List.cons_append, List.cons_append,
        parseQuoted_quote_quote, ih]
      rfl
    · rw [dupQuotes_cons_ne c t hc, List.cons_append, parseQuoted_cons_ne c _ hc, ih]
      rfl

theorem parseQuoted_dup_comma (r : List Char) : ∀ f : List Char,
    parseQuoted (dupQuotes f ++ '"' :: ',' :: r) = some (f, some r) := by
  intro f
  induction f with
  | nil => rfl
  | cons c t ih =>
    by_cases hc : c = '"'
    · subst hc
      rw [dupQuotes_cons_quote, List.cons_append, List.cons_append,
        parseQuoted_quote_quote, ih]
      rfl
    · rw [dupQuotes_cons_ne c t hc, List.cons_append, parseQuoted_cons_ne c _ hc, ih]
      rfl

theorem not_needsQuote_iff (f : List Char) :
    needsQuote f = false ↔ ',' ∉ f ∧ '"' ∉ f ∧ '\n' ∉ f ∧ '\x0d' ∉ f := by
  unfold needsQuote
  rw [← Bool.not_eq_true, List.any_eq_true]
  constructor
  · intro h
    refine ⟨fun hm => h ⟨',', hm, by decide⟩, fun hm => h ⟨'"', hm, by decide⟩,
      fun hm => h ⟨'\n', hm, by decide⟩, fun hm => h ⟨'\x0d', hm, by decide⟩⟩
  · rintro ⟨h1, h2, h3, h4⟩ ⟨c, hc, hpred⟩
    simp only [Bool.or_eq_true, decide_eq_true_eq] at hpred
    rcases hpred with ((rfl | rfl) | rfl) | rfl
    · exact h1 hc
    · exact h2 hc
    · exact h3 hc
    · exact h4 hc

theorem parseField_esc_end (f : List Char) : parseField (escField f) = some (f, none) := by
  unfold escField
  by_cases hq : needsQuote f
  · rw [if_pos hq]
    simp only [parseField, if_pos rfl]
    exact parseQuoted_dup_end f
  · rw [if_neg hq]
    rw [Bool.not_eq_true] at hq
    obtain ⟨h1, h2, _, _⟩ := (not_needsQuote_iff f).mp hq
    cases f with
    | nil => rfl
    | cons c t =>
      have hc : c ≠ '"' := fun hc => h2 (hc ▸ List.mem_cons_self c t)
      simp only [parseField, if_neg hc]
      rw [parseUnquoted_no_comma _ h1]

theorem parseField_esc_comma (f r : List Char) :
    parseField (escField f ++ ',' :: r) = some (f, some r) := by
  unfold escField
  by_cases hq : needsQuote f
  · rw [if_pos hq]
    simp only [List.cons_append, List.append_assoc, List.singleton_append]
    simp only [parseField, if_pos rfl]
    exact parseQuoted_dup_comma r f
  · rw [if_neg hq]
    rw [Bool.not_eq_true] at hq
    obtain ⟨h1, h2, _, _⟩ := (not_needsQuote_iff f).mp hq
    cases f with
    | nil =>
      simp only [List.nil_append, parseField, if_neg (by decide : ¬(',' = '"'))]
      rw [show parseUnquoted (',' :: r) = ([], some r) by simp [parseUnquoted]]
    | cons c t =>
      have hc : c ≠ '"' := fun hc => h2 (hc ▸ List.mem_cons_self c t)
      simp only [List.cons_append, parseField, if_neg hc]
      rw [← List.cons_append, parseUnquoted_append r _ h1]

theorem parseLineAux_join : ∀ (fs : List (List Char)) (fuel : ℕ), fs ≠ [] →
    (joinComma (fs.map escField)).length < fuel →
    parseLineAux fuel (joinComma (fs.map escField)) = some fs := by
  intro fs
  induction fs with
  | nil => intro fuel h _; exact absurd rfl h
  | cons f t ih =>
    intro fuel _ hlen
    match fuel with
    | 0 => omega
    | fuel + 1 =>
      cases t with
      | nil =>
        simp only [List.map_cons, List.map_nil, joinComma, parseLineAux,
          parseField_esc_end]
      | cons g t2 =>
        have hjoin : joinComma ((f :: g :: t2).map escField) =
            escField f ++ ',' :: joinComma ((g :: t2).map escField) := by
          simp only [List.map_cons]
          rfl
        rw [hjoin] at hlen ⊢
        simp only [parseLineAux, parseField_esc_comma]
        rw [ih fuel (by simp) (by simp only [List.length_append, List.length_cons] at hlen; omega)]
        rfl

theorem parseLine_join (fs : List (List Char)) (h : fs ≠ []) :
    parseLine (joinComma (fs.map escField)) = some fs :=
  parseLineAux_join fs _ h (Nat.lt_succ_self _)

/-! ### Lemmas: Option-valued traversal -/

theorem mapOption_congr_some {α β : Type _} {f : α → Option β} {g : α → β} :
    ∀ l : List α, (∀ a ∈ l, f a = some (g a)) → mapOption f l = some (l.map g) := by
  intro l
  induction l with
  | nil => intro _; rfl
  | cons a t ih =>
    intro h
    have ha := h a (List.mem_cons_self a t)
    have ht := ih fun x hx => h x (List.mem_cons_of_mem a hx)
    simp [mapOption, ha, ht]

theorem mapOption_forall₂ {α β : Type _} {f : α → Option β} :
    ∀ {l : List α} {bs : List β}, mapOption f l = some bs →
      List.Forall₂ (fun a b => f a = some b) l bs := by
  intro l
  induction l with
  | nil =>
    intro bs h
    simp only [mapOption, Option.some.injEq] at h
    rw [← h]
    exact List.Forall₂.nil
  | cons a t ih =>
    intro bs h
    simp only [mapOption] at h
    cases hfa : f a with
    | none => rw [hfa] at h; simp at h
    | some b =>
      rw [hfa] at h
      cases hft : mapOption f t with
      | none => rw [hft] at h; simp at h
      | some bt =>
        rw [hft] at h
        simp only [Option.some.injEq] at h
        rw [← h]
        exact List.Forall₂.cons hfa (ih hft)

theorem mapOption_isSome {α β : Type _} {f : α → Option β} :
    ∀ l : List α, (∀ a ∈ l, (f a).isSome) → ∃ bs, mapOption f l = some bs := by
  intro l
  induction l with
  | nil => intro _; exact ⟨[], rfl⟩
  | cons a t ih =>
    intro h
    obtain ⟨b, hb⟩ := Option.isSome_iff_exists.mp (h a (List.mem_cons_self a t))
    obtain ⟨bt, hbt⟩ := ih fun x hx => h x (List.mem_cons_of_mem a hx)
    exact ⟨b :: bt, by simp [mapOption, hb, hbt]⟩

/-! ### Lemmas: grouping and summation -/

theorem mem_dedupAux [DecidableEq κ] :
    ∀ (l seen : List κ) (x : κ), x ∈ dedupAux seen l ↔ x ∈ l ∧ x ∉ seen := by
  intro l
  induction l with
  | nil => intro seen x; simp [dedupAux]
  | cons k t ih =>
    intro seen x
    by_cases hk : k ∈ seen
    · rw [dedupAux, if_pos hk, ih]
      constructor
      · rintro ⟨hx, hxs⟩
        exact ⟨List.mem_cons_of_mem k hx, hxs⟩
      · rintro ⟨hx, hxs⟩
        rcases List.mem_cons.mp hx with rfl | hx
        · exact absurd hk hxs
        · exact ⟨hx, hxs⟩
    · rw [dedupAux, if_neg hk]
      constructor
      · intro hx
        rcases List.mem_cons.mp hx with rfl | hx
        · exact ⟨List.mem_cons_self x t, hk⟩
        · rw [ih] at hx
          refine ⟨List.mem_cons_of_mem k hx.1, fun hxs => hx.2 (List.mem_cons_of_mem k hxs)⟩
      · rintro ⟨hx, hxs⟩
        rcases List.mem_cons.mp hx with rfl | hx
        · exact List.mem_cons_self x _
        · by_cases hxk : x = k
          · subst hxk; exact List.mem_cons_self x _
          · refine List.mem_cons_of_mem k ((ih _ x).mpr ⟨hx, fun h => ?_⟩)
            rcases List.mem_cons.mp h with h | h
            · exact hxk h
            · exact hxs h

theorem nodup_dedupAux [DecidableEq κ] :
    ∀ l seen : List κ, (dedupAux seen l).Nodup := by
  intro l
  induction l with
  | nil => intro seen; simp [dedupAux]
  | cons k t ih =>
    intro seen
    by_cases hk : k ∈ seen
    · rw [dedupAux, if_pos hk]
      exact ih seen
    · rw [dedupAux, if_neg hk]
      refine List.Nodup.cons (fun h => ?_) (ih (k :: seen))
      exact ((mem_dedupAux t (k :: seen) k).mp h).2 (List.mem_cons_self k seen)

theorem mem_dedupKeys [DecidableEq κ] (l : List κ) (x : κ) :
    x ∈ dedupKeys l ↔ x ∈ l := by
  unfold dedupKeys
  rw [mem_dedupAux]
  simp

theorem nodup_dedupKeys [DecidableEq κ] (l : List κ) : (dedupKeys l).Nodup :=
  nodup_dedupAux l []

theorem sum_map_add_ite [DecidableEq κ] (k0 : κ) (c : ℚ) (g : κ → ℚ) :
    ∀ ks : List κ, ks.Nodup → k0 ∈ ks →
      (ks.map fun k => (if k0 = k then c else 0) + g k).sum = c + (ks.map g).sum := by
  intro ks
  induction ks with
  | nil => intro _ h; simp at h
  | cons k t ih =>
    intro hnd hmem
    rcases List.mem_cons.mp hmem with rfl | hmem2
    · have hnot : k0 ∉ t := (List.nodup_cons.mp hnd).1
      have ht : ∀ x ∈ t, (if k0 = x then c else 0) + g x = g x := by
        intro x hx
        have hne : k0 ≠ x := fun h => hnot (h ▸ hx)
        rw [if_neg hne, zero_add]
      rw [List.map_cons, List.sum_cons, if_pos rfl, List.map_congr_left ht,
        List.map_cons, List.sum_cons]
      ring
    · have hk : k0 ≠ k := by
        rintro rfl
        exact (List.nodup_cons.mp hnd).1 hmem2
      rw [List.map_cons, List.sum_cons, if_neg hk, zero_add, List.map_cons,
        List.sum_cons, ih (List.nodup_cons.mp hnd).2 hmem2]
      ring

theorem groupSum_map_snd [DecidableEq κ] (ps : List (κ × ℚ)) (ks : List κ) :
    (groupSum ps ks).map Prod.snd =
      ks.map fun k => ((ps.filter fun p => p.1 = k).map Prod.snd).sum := by
  unfold groupSum
  rw [List.map_map]
  rfl

theorem sum_groupSum [DecidableEq κ] :
    ∀ (ps : List (κ × ℚ)) (ks : List κ), ks.Nodup → (∀ p ∈ ps, p.1 ∈ ks) →
      ((groupSum ps ks).map Prod.snd).sum = (ps.map Prod.snd).sum := by
  intro ps
  induction ps with
  | nil =>
    intro ks _ _
    rw [groupSum_map_snd]
    simp
  | cons p pt ih =>
    intro ks hnd hcov
    have hstep : ∀ k, ((List.filter (fun x => x.1 = k) (p :: pt)).map Prod.snd).sum =
        (if p.1 = k then p.2 else 0) +
          ((List.filter (fun x => x.1 = k) pt).map Prod.snd).sum := by
      intro k
      by_cases hp : p.1 = k
      · rw [List.filter_cons_of_pos (by simpa using hp), List.map_cons, List.sum_cons,
          if_pos hp]
      · rw [List.filter_cons_of_neg (by simpa using hp), if_neg hp, zero_add]
    rw [groupSum_map_snd]
    have hmaps : (ks.map fun k =>
        ((List.filter (fun x => x.1 = k) (p :: pt)).map Prod.snd).sum) =
        ks.map fun k => (if p.1 = k then p.2 else 0) +
          ((List.filter (fun x => x.1 = k) pt).map Prod.snd).sum :=
      List.map_congr_left fun k _ => hstep k
    rw [hmaps, sum_map_add_ite p.1 p.2 _ ks hnd (hcov p (List.mem_cons_self p pt))]
    rw [← groupSum_map_snd, ih ks hnd fun x hx => hcov x (List.mem_cons_of_mem p hx)]
    rw [List.map_cons, List.sum_cons]

theorem forall₂_map_eq {α β γ : Type _} {R : α → β → Prop} {g1 : α → γ} {g2 : β → γ}
    (hR : ∀ a b, R a b → g2 b = g1 a) :
    ∀ {l1 : List α} {l2 : List β}, List.Forall₂ R l1 l2 → l2.map g2 = l1.map g1 := by
  intro l1 l2 h
  induction h with
  | nil => rfl
  | cons hab _ ih => simp only [List.map_cons, hR _ _ hab, ih]

theorem category_totals_key_sums (t : List Record) :
    ∀ p ∈ category_totals t,
      p.2 = ((t.filter fun r => r.category = p.1).map Record.amount).sum := by
  intro p hp
  unfold category_totals at hp
  rw [(List.perm_insertionSort totalGe _).mem_iff] at hp
  unfold groupSum at hp
  obtain ⟨k, _, hpk⟩ := List.mem_map.mp hp
  rw [← hpk]
  simp only
  have hfil : (List.filter (fun x => x.1 = k) (t.map fun r => (r.category, r.amount))) =
      (t.filter fun r => r.category = k).map fun r => (r.category, r.amount) := by
    rw [List.filter_map]
    rfl
  rw [hfil, List.map_map]
  rfl

/-! ### Claim theorems -/

/-- C9: on an empty table `view_expenses` reports that no expenses are
recorded and `monthly_summary` reports that no data is available; the
aggregation branch is not reached, so no zero/NaN statistics are computed
(the output carries no statistics at all). -/
theorem empty_table_reports_no_data :
    view_expenses [] 10 = ViewOutput.noExpenses ∧
    monthly_summary [] = SummaryOutput.noData :=
  ⟨rfl, rfl⟩

/-- C3 counterexample: `add_expense` does write the persistent file itself —
run on the empty table with inputs (blank date, `Food`, `Lunch`, amount
`10`) it performs a save rather than leaving persistence to its caller. -/
theorem add_expense_writes_file :
    ∃ out, add_expense (2024, 1, 5) []
        ⟨"", "Food", "Lunch", ["10"]⟩ = some out ∧ out.savedTables ≠ [] :=
  ⟨_, rfl, by intro h; simp at h⟩

/-- C3 (amended): `add_expense` itself persists the table: whenever it
returns, it has performed exactly one file write, of precisely the appended
table it returns; the caller only rebinds the table variable. -/
theorem add_expense_persists_itself (today : ℕ × ℕ × ℕ) (df : List Record)
    (inp : AddInput) (out : AddOutcome) (h : add_expense today df inp = some out) :
    out.savedTables = [out.table] := by
  unfold add_expense at h
  cases hf : firstFloat inp.amountStrs with
  | none => rw [hf] at h; simp at h
  | some q =>
    rw [hf] at h
    simp only [Option.map_some', Option.some.injEq] at h
    rw [← h]

/-- C3 witness: the amended theorem at a concrete run. -/
theorem add_expense_persists_itself_witness :
    ∃ out, add_expense (2024, 1, 5) []
        ⟨"", "Food", "Lunch", ["10"]⟩ = some out ∧ out.savedTables = [out.table] :=
  ⟨_, rfl, add_expense_persists_itself (2024, 1, 5) []
    ⟨"", "Food", "Lunch", ["10"]⟩ _ (by rfl)⟩

/-- C6: whenever the amount retry loop accepts a value `q`, `add_expense`
returns a table exactly one record longer, the pre-existing records are
unchanged, and the appended record carries the stripped inputs, the
blank-date default, and the accepted amount. -/
theorem add_expense_appends (today : ℕ × ℕ × ℕ) (df : List Record)
    (inp : AddInput) (q : ℚ) (h : firstFloat inp.amountStrs = some q) :
    ∃ out, add_expense today df inp = some out ∧
      out.table.length = df.length + 1 ∧
      out.table.take df.length = df ∧
      out.table.getLast? = some
        { date := if pyStrip inp.dateStr = "" then formatDate today else pyStrip inp.dateStr
          category := pyStrip inp.categoryStr
          description := pyStrip inp.descriptionStr
          amount := q } := by
  refine ⟨{ table := df ++ [newRecord today inp q],
            savedTables := [df ++ [newRecord today inp q]] }, ?_, ?_, ?_, ?_⟩
  · unfold add_expense
    rw [h]
    rfl
  · simp
  · exact List.take_left df _
  · rw [List.getLast?_concat]
    rfl

/-- C6 witness: the theorem at a concrete run (amount accepted on the
second prompt). -/
theorem add_expense_appends_witness :
    ∃ out, add_expense (2024, 1, 5)
        [{ date := "2024-01-01", category := "Bills", description := "Rent", amount := 30 }]
        ⟨" 2024-01-02 ", " Food ", "Lunch", ["abc", "10"]⟩ = some out ∧
      out.table.length = 2 ∧
      out.table.take 1 =
        [{ date := "2024-01-01", category := "Bills", description := "Rent", amount := 30 }] ∧
      out.table.getLast? = some
        { date := if pyStrip " 2024-01-02 " = "" then formatDate (2024, 1, 5)
                  else pyStrip " 2024-01-02 "
          category := pyStrip " Food "
          description := pyStrip "Lunch"
          amount := ((10 : ℕ) : ℚ) } :=
  add_expense_appends (2024, 1, 5) _ _ ((10 : ℕ) : ℚ) rfl

/-- C10: the record created by `add_expense` stores the date, category and
description answers with surrounding whitespace stripped, and when the
stripped date answer is empty the stored date is the current date in
`YYYY-MM-DD` form. -/
theorem add_expense_stores_stripped (today : ℕ × ℕ × ℕ) (df : List Record)
    (inp : AddInput) (out : AddOutcome) (h : add_expense today df inp = some out) :
    ∃ r, out.table.getLast? = some r ∧
      r.category = pyStrip inp.categoryStr ∧
      r.description = pyStrip inp.descriptionStr ∧
      (pyStrip inp.dateStr ≠ "" → r.date = pyStrip inp.dateStr) ∧
      (pyStrip inp.dateStr = "" → r.date = formatDate today) := by
  unfold add_expense at h
  cases hf : firstFloat inp.amountStrs with
  | none => rw [hf] at h; simp at h
  | some q =>
    rw [hf] at h
    simp only [Option.map_some', Option.some.injEq] at h
    refine ⟨newRecord today inp q, ?_, rfl, rfl, ?_, ?_⟩
    · rw [← h]
      exact List.getLast?_concat _
    · intro hne
      unfold newRecord
      simp [if_neg hne]
    · intro heq
      unfold newRecord
      simp [if_pos heq]

/-- C10 witness: the theorem at a concrete run with a padded date answer
and at one with a blank date answer. -/
theorem add_expense_stores_stripped_witness :
    ∃ r, (AddOutcome.mk [newRecord (2024, 1, 5) ⟨" 2024-03-04 ", " Food ", " tea ", ["7"]⟩
        ((7 : ℕ) : ℚ)] [[newRecord (2024, 1, 5) ⟨" 2024-03-04 ", " Food ", " tea ", ["7"]⟩
        ((7 : ℕ) : ℚ)]]).table.getLast? = some r ∧
      r.category = pyStrip " Food " ∧
      r.description = pyStrip " tea " ∧
      (pyStrip " 2024-03-04 " ≠ "" → r.date = pyStrip " 2024-03-04 ") ∧
      (pyStrip " 2024-03-04 " = "" → r.date = formatDate (2024, 1, 5)) :=
  add_expense_stores_stripped (2024, 1, 5) []
    ⟨" 2024-03-04 ", " Food ", " tea ", ["7"]⟩ _ rfl

/-- C8: on the worked scenario table, the monthly summary yields
`2024-01: 25.00` and `2024-02: 30.00`; the overall statistics print total
`55.00`, average `18.33`, max `30.00` and min `10.00`; and the category
summary, in descending order, is `Travel: 30.00` then `Food: 25.00`. -/
theorem scenario_results :
    monthly_totals scenarioTable = some [((2024, 1), 25), ((2024, 2), 30)] ∧
    totalSpent scenarioTable = 55 ∧
    format2 (totalSpent scenarioTable) = "55.00".data ∧
    format2 (meanSpent scenarioTable) = "18.33".data ∧
    maxSpent scenarioTable = 30 ∧
    minSpent scenarioTable = 10 ∧
    category_totals scenarioTable = [("Travel", 30), ("Food", 25)] := by
  have htot : totalSpent scenarioTable = 55 := by norm_num [totalSpent, scenarioTable]
  have hmean : meanSpent scenarioTable = 55 / 3 := by
    norm_num [meanSpent, totalSpent, scenarioTable]
  refine ⟨?_, htot, ?_, ?_, by decide, by decide, ?_⟩
  · have h : mapOption
        (fun r => (parseDate r.date).map fun ymd => ((ymd.1, ymd.2.1), r.amount))
        scenarioTable =
        some [((2024, 1), (10 : ℚ)), ((2024, 1), 15), ((2024, 2), 30)] := by rfl
    unfold monthly_totals
    rw [h]
    simp only [Option.map_some', Option.some.injEq]
    norm_num [groupSum, dedupKeys, dedupAux, List.insertionSort, List.orderedInsert,
      periodLe]
  · rw [htot]
    have hr : round ((55 : ℚ) * 100) = 5500 := by norm_num [round_eq]
    simp only [format2, hr]
    decide
  · rw [hmean]
    have hr : round ((55 / 3 : ℚ) * 100) = 1833 := by norm_num [round_eq]
    simp only [format2, hr]
    decide
  · unfold category_totals
    have h : groupSum (scenarioTable.map fun r => (r.category, r.amount))
        (dedupKeys (scenarioTable.map Record.category)) =
        [("Food", (10 : ℚ) + (15 + 0)), ("Travel", (30 : ℚ) + 0)] := by rfl
    rw [h]
    norm_num [List.insertionSort, List.orderedInsert, totalGe]

/-- C4: for every non-empty table whose dates all parse, the per-category
totals, the per-month totals and the raw amounts all add up to the same
grand total (the amounts partition exactly across both groupings). -/
theorem sums_partition (t : List Record) (h1 : t ≠ [])
    (h2 : ∀ r ∈ t, (parseDate r.date).isSome) :
    ∃ mts, monthly_totals t = some mts ∧
      ((category_totals t).map Prod.snd).sum = (mts.map Prod.snd).sum ∧
      (mts.map Prod.snd).sum = (t.map Record.amount).sum := by
  have hf : ∀ r ∈ t,
      ((parseDate r.date).map fun ymd => ((ymd.1, ymd.2.1), r.amount)).isSome := by
    intro r hr
    rw [Option.isSome_map']
    exact h2 r hr
  obtain ⟨ps, hps⟩ := mapOption_isSome t hf
  have hsnd : ps.map Prod.snd = t.map Record.amount := by
    refine forall₂_map_eq ?_ (mapOption_forall₂ hps)
    intro r p hrp
    obtain ⟨ymd, _, hp2⟩ := Option.map_eq_some'.mp hrp
    rw [← hp2]
  have hmts : monthly_totals t =
      some (groupSum ps (List.insertionSort periodLe (dedupKeys (ps.map Prod.fst)))) := by
    unfold monthly_totals
    rw [hps]
    rfl
  refine ⟨_, hmts, ?_, ?_⟩
  · have hcat : ((category_totals t).map Prod.snd).sum = (t.map Record.amount).sum := by
      unfold category_totals
      rw [((List.perm_insertionSort totalGe _).map Prod.snd).sum_eq]
      rw [sum_groupSum _ _ (nodup_dedupKeys _) ?_]
      · rw [List.map_map]
        rfl
      · intro p hp
        rw [mem_dedupKeys]
        obtain ⟨r, hr, hpr⟩ := List.mem_map.mp hp
        rw [← hpr]
        exact List.mem_map_of_mem Record.category hr
    have hmon : ((groupSum ps
        (List.insertionSort periodLe (dedupKeys (ps.map Prod.fst)))).map Prod.snd).sum =
        (t.map Record.amount).sum := by
      rw [sum_groupSum _ _ ?_ ?_, hsnd]
      · rw [((List.perm_insertionSort periodLe _).nodup_iff)]
        exact nodup_dedupKeys _
      · intro p hp
        rw [(List.perm_insertionSort periodLe _).mem_iff, mem_dedupKeys]
        exact List.mem_map_of_mem Prod.fst hp
    rw [hcat, hmon]
  · rw [sum_groupSum _ _ ?_ ?_, hsnd]
    · rw [((List.perm_insertionSort periodLe _).nodup_iff)]
      exact nodup_dedupKeys _
    · intro p hp
      rw [(List.perm_insertionSort periodLe _).mem_iff, mem_dedupKeys]
      exact List.mem_map_of_mem Prod.fst hp

/-- C4 witness: the partition identity on the worked scenario table. -/
theorem sums_partition_witness :
    ∃ mts, monthly_totals scenarioTable = some mts ∧
      ((category_totals scenarioTable).map Prod.snd).sum = (mts.map Prod.snd).sum ∧
      (mts.map Prod.snd).sum = (scenarioTable.map Record.amount).sum :=
  sums_partition scenarioTable (by decide) (by decide)

/-- C5: the category summary groups records by exact (case-sensitive)
category string — its keys are exactly the distinct categories, each total
is the sum of the amounts of the records with that category — and the
sequence of totals is sorted descending: each total is at least the next. -/
theorem category_totals_descending (t : List Record) :
    List.Perm ((category_totals t).map Prod.fst) (dedupKeys (t.map Record.category)) ∧
    (∀ p ∈ category_totals t,
      p.2 = ((t.filter fun r => r.category = p.1).map Record.amount).sum) ∧
    List.Chain' (fun a b : ℚ => b ≤ a) ((category_totals t).map Prod.snd) := by
  refine ⟨?_, category_totals_key_sums t, ?_⟩
  · unfold category_totals
    have hperm := (List.perm_insertionSort totalGe
      (groupSum (t.map fun r => (r.category, r.amount))
        (dedupKeys (t.map Record.category)))).map Prod.fst
    have hkeys : (groupSum (t.map fun r => (r.category, r.amount))
        (dedupKeys (t.map Record.category))).map Prod.fst =
        dedupKeys (t.map Record.category) := by
      unfold groupSum
      rw [List.map_map]
      exact List.map_id _
    rw [hkeys] at hperm
    exact hperm
  · have hsorted := List.sorted_insertionSort totalGe
      (groupSum (t.map fun r => (r.category, r.amount))
        (dedupKeys (t.map Record.category)))
    unfold category_totals
    refine List.Pairwise.chain' ?_
    refine List.pairwise_map.mpr ?_
    exact List.Pairwise.imp (fun h => h) hsorted

/-- C5 witness: the grouping equation applied to a one-record table. -/
theorem category_totals_descending_witness :
    (10 : ℚ) = (([lunchRecord].filter fun r =>
      r.category = ("Food", (10 : ℚ)).1).map Record.amount).sum := by
  have h := (category_totals_descending [lunchRecord]).2.1 ("Food", (10 : ℚ))
    (by simp [category_totals, groupSum, dedupKeys, dedupAux, List.insertionSort,
      List.orderedInsert, lunchRecord])
  simpa using h

/-! ### Lemmas: column assignment on frames -/

theorem map_zip_map_left {β : Type _} (F : List Value → β → List Value)
    (G : List Value → Value) :
    ∀ (rows : List (List Value)) (vals : List β), rows.length = vals.length →
      (∀ row ∈ rows, ∀ v, G (F row v) = G row) →
      ((rows.zip vals).map fun rv => F rv.1 rv.2).map G = rows.map G := by
  intro rows
  induction rows with
  | nil => intro vals _ _; rfl
  | cons row t ih =>
    intro vals hlen hF
    cases vals with
    | nil => simp at hlen
    | cons v tv =>
      simp only [List.zip_cons_cons, List.map_cons]
      rw [hF row (List.mem_cons_self row t) v,
        ih tv (by simpa using hlen) fun r hr => hF r (List.mem_cons_of_mem row hr)]

theorem map_zip_map_right {β : Type _} (F : List Value → β → List Value)
    (G : List Value → β) :
    ∀ (rows : List (List Value)) (vals : List β), rows.length = vals.length →
      (∀ row ∈ rows, ∀ v, G (F row v) = v) →
      ((rows.zip vals).map fun rv => F rv.1 rv.2).map G = vals := by
  intro rows
  induction rows with
  | nil =>
    intro vals hlen _
    cases vals with
    | nil => rfl
    | cons v tv => simp at hlen
  | cons row t ih =>
    intro vals hlen hF
    cases vals with
    | nil => simp at hlen
    | cons v tv =>
      simp only [List.zip_cons_cons, List.map_cons]
      rw [hF row (List.mem_cons_self row t) v,
        ih tv (by simpa using hlen) fun r hr => hF r (List.mem_cons_of_mem row hr)]

theorem length_zip_map {β : Type _} (F : List Value → β → List Value)
    (rows : List (List Value)) (vals : List β) (h : rows.length = vals.length) :
    ((rows.zip vals).map fun rv => F rv.1 rv.2).length = rows.length := by
  simp [List.length_zip, h]

theorem mem_zip_map {β : Type _} (F : List Value → β → List Value)
    (rows : List (List Value)) (vals : List β) (r' : List Value)
    (h : r' ∈ (rows.zip vals).map fun rv => F rv.1 rv.2) :
    ∃ row ∈ rows, ∃ v, r' = F row v := by
  obtain ⟨⟨row, v⟩, hmem, hr⟩ := List.mem_map.mp h
  exact ⟨row, (List.of_mem_zip hmem).1, v, hr.symm⟩

theorem assignCol_mem (f : Frame) (c : String) (vals : List Value) (h : c ∈ f.cols) :
    f.assignCol c vals =
      ⟨f.cols, (f.rows.zip vals).map fun rv => rv.1.set (f.cols.indexOf c) rv.2⟩ := by
  unfold Frame.assignCol
  rw [if_pos h]

theorem assignCol_not_mem (f : Frame) (c : String) (vals : List Value) (h : c ∉ f.cols) :
    f.assignCol c vals =
      ⟨f.cols ++ [c], (f.rows.zip vals).map fun rv => rv.1 ++ [rv.2]⟩ := by
  unfold Frame.assignCol
  rw [if_neg h]

theorem getCol_mk (cols : List String) (rows : List (List Value)) (c : String) :
    Frame.getCol ⟨cols, rows⟩ c = rows.map fun r => r.getD (cols.indexOf c) (.s "") :=
  rfl

theorem assign_date_effect (f : Frame) (hcols : f.cols = COLUMNS)
    (hrect : ∀ row ∈ f.rows, row.length = 4) (dates : List Value)
    (hd : mapOption toDatetimeValue (f.getCol "Date") = some dates) :
    (f.assignCol "Date" dates).cols = COLUMNS ∧
    (f.assignCol "Date" dates).rows.length = f.rows.length ∧
    (∀ row ∈ (f.assignCol "Date" dates).rows, row.length = 4) ∧
    (f.assignCol "Date" dates).getCol "Category" = f.getCol "Category" ∧
    (f.assignCol "Date" dates).getCol "Description" = f.getCol "Description" ∧
    (f.assignCol "Date" dates).getCol "Amount" = f.getCol "Amount" ∧
    (f.assignCol "Date" dates).getCol "Date" = dates := by
  have hdl : dates.length = f.rows.length := by
    have h1 := (mapOption_forall₂ hd).length_eq
    unfold Frame.getCol at h1
    rw [List.length_map] at h1
    omega
  have hmem : "Date" ∈ f.cols := by rw [hcols]; decide
  have hidx : f.cols.indexOf "Date" = 0 := by rw [hcols]; decide
  have hlen' : f.rows.length = dates.length := hdl.symm
  rw [assignCol_mem f _ dates hmem, hidx]
  have hget : ∀ j : ℕ, 1 ≤ j →
      ((f.rows.zip dates).map fun rv => rv.1.set 0 rv.2).map
          (fun r => r.getD j (.s "")) =
        f.rows.map fun r => r.getD j (.s "") := by
    intro j hj
    refine map_zip_map_left (fun row v => row.set 0 v)
      (fun r => r.getD j (.s "")) f.rows dates hlen' fun row _ v => ?_
    simp only [List.getD_eq_getElem?_getD, List.getElem?_set]
    rw [if_neg (by omega : ¬ 0 = j)]
  refine ⟨hcols, by rw [List.length_map, List.length_zip, hlen', Nat.min_self],
    ?_, ?_, ?_, ?_, ?_⟩
  · intro row hrow
    obtain ⟨r0, hr0, v, rfl⟩ :=
      mem_zip_map (fun row v => row.set 0 v) f.rows dates row hrow
    rw [List.length_set]
    exact hrect r0 hr0
  · simp only [Frame.getCol, hcols]
    rw [show (COLUMNS.indexOf "Category") = 1 from by decide]
    exact hget 1 le_rfl
  · simp only [Frame.getCol, hcols]
    rw [show (COLUMNS.indexOf "Description") = 2 from by decide]
    exact hget 2 (by omega)
  · simp only [Frame.getCol, hcols]
    rw [show (COLUMNS.indexOf "Amount") = 3 from by decide]
    exact hget 3 (by omega)
  · simp only [Frame.getCol, hcols]
    rw [show (COLUMNS.indexOf "Date") = 0 from by decide]
    refine map_zip_map_right (fun row v => row.set 0 v)
      (fun r => r.getD 0 (.s "")) f.rows dates hlen' fun row hrow v => ?_
    have h4 : row.length = 4 := hrect row hrow
    have h0 : 0 < row.length := by omega
    simp only [List.getD_eq_getElem?_getD, List.getElem?_set]
    simp [h0]

theorem assign_yearmonth_effect (f1 : Frame) (hcols : f1.cols = COLUMNS)
    (hrect : ∀ row ∈ f1.rows, row.length = 4) (yms : List Value)
    (hlen : f1.rows.length = yms.length) :
    (f1.assignCol "YearMonth" yms).cols = COLUMNS ++ ["YearMonth"] ∧
    (f1.assignCol "YearMonth" yms).rows.length = f1.rows.length ∧
    (f1.assignCol "YearMonth" yms).getCol "Category" = f1.getCol "Category" ∧
    (f1.assignCol "YearMonth" yms).getCol "Description" = f1.getCol "Description" ∧
    (f1.assignCol "YearMonth" yms).getCol "Amount" = f1.getCol "Amount" ∧
    (f1.assignCol "YearMonth" yms).getCol "Date" = f1.getCol "Date" := by
  have hmem : "YearMonth" ∉ f1.cols := by rw [hcols]; decide
  rw [assignCol_not_mem f1 _ yms hmem]
  have hget : ∀ j : ℕ, j < 4 →
      ((f1.rows.zip yms).map fun rv => rv.1 ++ [rv.2]).map
          (fun r => r.getD j (.s "")) =
        f1.rows.map fun r => r.getD j (.s "") := by
    intro j hj
    refine map_zip_map_left (fun row v => row ++ [v])
      (fun r => r.getD j (.s "")) f1.rows yms hlen fun row hrow v => ?_
    have h4 : row.length = 4 := hrect row hrow
    show (row ++ [v]).getD j (Value.s "") = row.getD j (Value.s "")
    rw [List.getD_append _ _ _ _ (by omega)]
  refine ⟨by rw [hcols],
    by rw [List.length_map, List.length_zip, hlen, Nat.min_self], ?_, ?_, ?_, ?_⟩
  · simp only [Frame.getCol, hcols]
    rw [show ((COLUMNS ++ ["YearMonth"]).indexOf "Category") = 1 from by decide,
      show (COLUMNS.indexOf "Category") = 1 from by decide]
    exact hget 1 (by omega)
  · simp only [Frame.getCol, hcols]
    rw [show ((COLUMNS ++ ["YearMonth"]).indexOf "Description") = 2 from by decide,
      show (COLUMNS.indexOf "Description") = 2 from by decide]
    exact hget 2 (by omega)
  · simp only [Frame.getCol, hcols]
    rw [show ((COLUMNS ++ ["YearMonth"]).indexOf "Amount") = 3 from by decide,
      show (COLUMNS.indexOf "Amount") = 3 from by decide]
    exact hget 3 (by omega)
  · simp only [Frame.getCol, hcols]
    rw [show ((COLUMNS ++ ["YearMonth"]).indexOf "Date") = 0 from by decide,
      show (COLUMNS.indexOf "Date") = 0 from by decide]
    exact hget 0 (by omega)

/-- C1 counterexample: on a one-record table, `monthly_summary` and
`plot_daily_trend` do not leave the in-memory frame unchanged — both
replace the `Date` column in place (and `monthly_summary` adds a
`YearMonth` column), so the summary operations are not all pure. -/
theorem summary_mutates_frame :
    monthlySummaryMutate
        ⟨COLUMNS, [[.s "2024-01-05", .s "Food", .s "Lunch", .q 10]]⟩ ≠
      some ⟨COLUMNS, [[.s "2024-01-05", .s "Food", .s "Lunch", .q 10]]⟩ ∧
    plotDailyTrendMutate
        ⟨COLUMNS, [[.s "2024-01-05", .s "Food", .s "Lunch", .q 10]]⟩ ≠
      some ⟨COLUMNS, [[.s "2024-01-05", .s "Food", .s "Lunch", .q 10]]⟩ :=
  ⟨by decide, by decide⟩

/-- C1 (amended): `plot_by_category` is a pure function of the table, but
`monthly_summary` and `plot_daily_trend` mutate the shared frame: each
replaces the `Date` column with its parsed datetimes, `monthly_summary`
additionally appends a `YearMonth` column, and everything else is
preserved — row count and the `Category`, `Description` and `Amount`
columns are unchanged. -/
theorem summary_frame_effects (f : Frame) (hcols : f.cols = COLUMNS)
    (hrect : ∀ row ∈ f.rows, row.length = 4) :
    plotByCategoryMutate f = f ∧
    (∀ f', monthlySummaryMutate f = some f' →
      f'.cols = (if f.rows.isEmpty then COLUMNS else COLUMNS ++ ["YearMonth"]) ∧
      f'.rows.length = f.rows.length ∧
      f'.getCol "Category" = f.getCol "Category" ∧
      f'.getCol "Description" = f.getCol "Description" ∧
      f'.getCol "Amount" = f.getCol "Amount" ∧
      mapOption toDatetimeValue (f.getCol "Date") = some (f'.getCol "Date")) ∧
    (∀ f', plotDailyTrendMutate f = some f' →
      f'.cols = COLUMNS ∧
      f'.rows.length = f.rows.length ∧
      f'.getCol "Category" = f.getCol "Category" ∧
      f'.getCol "Description" = f.getCol "Description" ∧
      f'.getCol "Amount" = f.getCol "Amount" ∧
      mapOption toDatetimeValue (f.getCol "Date") = some (f'.getCol "Date")) := by
  refine ⟨rfl, ?_, ?_⟩
  · intro f' h
    unfold monthlySummaryMutate at h
    by_cases hemp : f.rows.isEmpty
    · rw [if_pos hemp] at h
      have hf : f' = f := by
        simpa using h.symm
      subst hf
      have hrows : f'.rows = [] := List.isEmpty_iff.mp hemp
      refine ⟨by rw [if_pos hemp, hcols], rfl, rfl, rfl, rfl, ?_⟩
      unfold Frame.getCol
      rw [hrows]
      rfl
    · rw [if_neg hemp] at h
      cases hd : mapOption toDatetimeValue (f.getCol "Date") with
      | none => rw [hd] at h; simp at h
      | some dates =>
        rw [hd] at h
        simp only [Option.bind_eq_bind, Option.some_bind] at h
        cases hy : mapOption toPeriodValue dates with
        | none => rw [hy] at h; simp at h
        | some yms =>
          rw [hy] at h
          simp only [Option.some_bind, Option.some.injEq] at h
          obtain ⟨hc1, hl1, hr1, hcat1, hdesc1, hamt1, hdate1⟩ :=
            assign_date_effect f hcols hrect dates hd
          have hyl : (f.assignCol "Date" dates).rows.length = yms.length := by
            rw [hl1]
            have h2 := (mapOption_forall₂ hy).length_eq
            have h3 := (mapOption_forall₂ hd).length_eq
            unfold Frame.getCol at h3
            rw [List.length_map] at h3
            omega
          obtain ⟨hc2, hl2, hcat2, hdesc2, hamt2, hdate2⟩ :=
            assign_yearmonth_effect (f.assignCol "Date" dates) hc1 hr1 yms hyl
          rw [← h]
          refine ⟨by rw [if_neg hemp]; exact hc2, by rw [hl2, hl1], ?_, ?_, ?_, ?_⟩
          · rw [hcat2, hcat1]
          · rw [hdesc2, hdesc1]
          · rw [hamt2, hamt1]
          · rw [hdate2, hdate1]
  · intro f' h
    unfold plotDailyTrendMutate at h
    by_cases hemp : f.rows.isEmpty
    · rw [if_pos hemp] at h
      have hf : f' = f := by
        simpa using h.symm
      subst hf
      have hrows : f'.rows = [] := List.isEmpty_iff.mp hemp
      refine ⟨hcols, rfl, rfl, rfl, rfl, ?_⟩
      unfold Frame.getCol
      rw [hrows]
      rfl
    · rw [if_neg hemp] at h
      cases hd : mapOption toDatetimeValue (f.getCol "Date") with
      | none => rw [hd] at h; simp at h
      | some dates =>
        rw [hd] at h
        simp only [Option.map_some', Option.some.injEq] at h
        obtain ⟨hc1, hl1, _, hcat1, hdesc1, hamt1, hdate1⟩ :=
          assign_date_effect f hcols hrect dates hd
        rw [← h]
        exact ⟨hc1, hl1, hcat1, hdesc1, hamt1, by rw [hdate1]⟩

/-- C1 witness: the amended theorem at a concrete one-record frame. -/
theorem summary_frame_effects_witness :
    plotByCategoryMutate
        ⟨COLUMNS, [[.s "2024-01-05", .s "Food", .s "Lunch", .q 10]]⟩ =
      ⟨COLUMNS, [[.s "2024-01-05", .s "Food", .s "Lunch", .q 10]]⟩ ∧
    (∀ f', monthlySummaryMutate
        ⟨COLUMNS, [[.s "2024-01-05", .s "Food", .s "Lunch", .q 10]]⟩ = some f' →
      f'.cols = (if ([[Value.s "2024-01-05", Value.s "Food", Value.s "Lunch",
          Value.q 10]] : List (List Value)).isEmpty then COLUMNS
        else COLUMNS ++ ["YearMonth"]) ∧
      f'.rows.length = ([[Value.s "2024-01-05", Value.s "Food", Value.s "Lunch",
          Value.q 10]] : List (List Value)).length ∧
      f'.getCol "Category" = Frame.getCol
        ⟨COLUMNS, [[.s "2024-01-05", .s "Food", .s "Lunch", .q 10]]⟩ "Category" ∧
      f'.getCol "Description" = Frame.getCol
        ⟨COLUMNS, [[.s "2024-01-05", .s "Food", .s "Lunch", .q 10]]⟩ "Description" ∧
      f'.getCol "Amount" = Frame.getCol
        ⟨COLUMNS, [[.s "2024-01-05", .s "Food", .s "Lunch", .q 10]]⟩ "Amount" ∧
      mapOption toDatetimeValue (Frame.getCol
        ⟨COLUMNS, [[.s "2024-01-05", .s "Food", .s "Lunch", .q 10]]⟩ "Date") =
        some (f'.getCol "Date")) ∧
    (∀ f', plotDailyTrendMutate
        ⟨COLUMNS, [[.s "2024-01-05", .s "Food", .s "Lunch", .q 10]]⟩ = some f' →
      f'.cols = COLUMNS ∧
      f'.rows.length = ([[Value.s "2024-01-05", Value.s "Food", Value.s "Lunch",
          Value.q 10]] : List (List Value)).length ∧
      f'.getCol "Category" = Frame.getCol
        ⟨COLUMNS, [[.s "2024-01-05", .s "Food", .s "Lunch", .q 10]]⟩ "Category" ∧
      f'.getCol "Description" = Frame.getCol
        ⟨COLUMNS, [[.s "2024-01-05", .s "Food", .s "Lunch", .q 10]]⟩ "Description" ∧
      f'.getCol "Amount" = Frame.getCol
        ⟨COLUMNS, [[.s "2024-01-05", .s "Food", .s "Lunch", .q 10]]⟩ "Amount" ∧
      mapOption toDatetimeValue (Frame.getCol
        ⟨COLUMNS, [[.s "2024-01-05", .s "Food", .s "Lunch", .q 10]]⟩ "Date") =
        some (f'.getCol "Date")) :=
  summary_frame_effects
    ⟨COLUMNS, [[.s "2024-01-05", .s "Food", .s "Lunch", .q 10]]⟩ rfl (by decide)

/-! ### Lemmas: the save/load round-trip -/

theorem mapOption_map {α β γ : Type _} (g : β → Option γ) (m : α → β) :
    ∀ l : List α, mapOption g (l.map m) = mapOption (fun a => g (m a)) l := by
  intro l
  induction l with
  | nil => rfl
  | cons a t ih => simp [mapOption, ih]

theorem forall₂_map_self {α β : Type _} {P : α → β → Prop} (G : α → β) :
    ∀ l : List α, (∀ a ∈ l, P a (G a)) → List.Forall₂ P l (l.map G) := by
  intro l
  induction l with
  | nil => intro _; exact List.Forall₂.nil
  | cons a t ih =>
    intro h
    exact List.Forall₂.cons (h a (List.mem_cons_self a t))
      (ih fun x hx => h x (List.mem_cons_of_mem a hx))

theorem renderDec_ne_nil (q : ℚ) (h : IsDecimal q) : renderDec q ≠ [] := by
  intro hnil
  have hp := parseNumber_renderDec q h
  rw [hnil] at hp
  exact Option.noConfusion hp

theorem loadCell_renderDec (q : ℚ) (h : IsDecimal q) :
    loadCell true (renderDec q) = .q q := by
  unfold loadCell
  rw [if_neg (by simpa [naLike] using renderDec_ne_nil q h), if_pos rfl,
    parseNumber_renderDec q h]

theorem load_expenses_cons (h : String) (rest : List String) :
    load_expenses (some (h :: rest)) =
      match parseLine h.data with
      | none => .error "ParserError"
      | some cols =>
        match mapOption (fun ln => parseLine ln.data) rest with
        | none => .error "ParserError"
        | some rows => buildFrame cols rows :=
  rfl

theorem buildFrame_table (rows : List (List (List Char)))
    (hshape4 : ∀ r ∈ rows, r.length = 4) :
    buildFrame ["Date".data, "Category".data, "Description".data, "Amount".data]
        rows = .ok ⟨COLUMNS, loadRows 4 rows⟩ := by
  have hfil : (rows.filter fun r => r ≠ [[]]) = rows := by
    rw [List.filter_eq_self]
    intro r hr
    have h4 := hshape4 r hr
    simp only [decide_eq_true_eq]
    intro heq
    rw [heq] at h4
    simp at h4
  have hw : ¬ ((rows.headD []).length = (["Date".data, "Category".data,
      "Description".data, "Amount".data] : List (List Char)).length + 1) := by
    cases rows with
    | nil => simp
    | cons r0 tr =>
      have h4 := hshape4 r0 (List.mem_cons_self r0 tr)
      rw [List.headD_cons, h4]
      decide
  have hle : (rows.all fun r => r.length ≤ (["Date".data, "Category".data,
      "Description".data, "Amount".data] : List (List Char)).length) = true := by
    rw [List.all_eq_true]
    intro r hr
    have h4 := hshape4 r hr
    simp [h4]
  have hnorm : rows.map (normalizeRow (["Date".data, "Category".data,
      "Description".data, "Amount".data] : List (List Char)).length
      (["Date".data, "Category".data, "Description".data,
        "Amount".data] : List (List Char)).length) = rows := by
    have h1 : ∀ r ∈ rows, normalizeRow 4 4 r = id r := by
      intro r hr
      have h4 := hshape4 r hr
      unfold normalizeRow
      rw [h4]
      simp
    calc rows.map (normalizeRow (["Date".data, "Category".data,
          "Description".data, "Amount".data] : List (List Char)).length
          (["Date".data, "Category".data, "Description".data,
            "Amount".data] : List (List Char)).length) =
        rows.map id := List.map_congr_left fun r hr => h1 r hr
      _ = rows := List.map_id rows
  unfold buildFrame
  simp only
  rw [hfil, if_neg hw, if_pos hle, hnorm]
  rfl

theorem isRecordRow_shape (row : List Value) (h : isRecordRow row = true) :
    ∃ d c de q, row = [.s d, .s c, .s de, .q q] ∧ IsDecimal q := by
  unfold isRecordRow at h
  split at h
  · next d c de q => exact ⟨d, c, de, q, rfl, of_decide_eq_true h⟩
  · exact absurd h (by simp)

/-- C2 counterexample: save-then-load is not the identity on the table.
On the one-record table whose Category is the digit string `12`, the
reloaded frame differs from the original: `read_csv`'s type inference turns
the all-numeric Category column into floats. -/
theorem save_load_not_identity :
    load_expenses (some (save_expenses
        ⟨COLUMNS, [[.s "2024-01-05", .s "12", .s "Lunch", .q 10]]⟩)) ≠
      Except.ok ⟨COLUMNS, [[.s "2024-01-05", .s "12", .s "Lunch", .q 10]]⟩ := by
  decide

/-- C2 (amended): save followed by load preserves the record count, the
header (so fields keep their order), and every Amount cell exactly (hence
to any number of decimal places); cells in the string columns may change
representation (missing-value and numeric inference), so full identity
does not hold. -/
theorem save_load_roundtrip (f : Frame) (hcols : f.cols = COLUMNS)
    (hall : f.rows.all isRecordRow = true) :
    ∃ rows', load_expenses (some (save_expenses f)) = Except.ok ⟨COLUMNS, rows'⟩ ∧
      rows'.length = f.rows.length ∧
      List.Forall₂ (fun row row' => row'.length = 4 ∧
        ∀ q : ℚ, row.getD 3 .nan = .q q → row'.getD 3 .nan = .q q) f.rows rows' := by
  have hshape : ∀ row ∈ f.rows, ∃ d c de q,
      row = [Value.s d, .s c, .s de, .q q] ∧ IsDecimal q :=
    fun row hrow => isRecordRow_shape row (List.all_eq_true.mp hall row hrow)
  have hsave : save_expenses f =
      String.mk (joinComma (COLUMNS.map fun c => escField c.data)) ::
        f.rows.map fun r =>
          String.mk (joinComma (r.map fun v => escField (renderCell v))) := by
    unfold save_expenses
    rw [hcols]
  have hheader : parseLine (String.mk
      (joinComma (COLUMNS.map fun c => escField c.data))).data =
      some ["Date".data, "Category".data, "Description".data, "Amount".data] := by
    decide
  have hrows : mapOption (fun ln => parseLine ln.data)
      (f.rows.map fun r =>
        String.mk (joinComma (r.map fun v => escField (renderCell v)))) =
      some (f.rows.map fun r => r.map renderCell) := by
    rw [mapOption_map]
    refine mapOption_congr_some _ fun row hrow => ?_
    obtain ⟨d, c, de, q, rfl, hq⟩ := hshape row hrow
    have hpj := parseLine_join ([Value.s d, .s c, .s de, .q q].map renderCell)
      (by simp)
    rw [List.map_map] at hpj
    exact hpj
  have hshape4 : ∀ r ∈ f.rows.map fun r => r.map renderCell, r.length = 4 := by
    intro r' hr'
    obtain ⟨row, hrow, rfl⟩ := List.mem_map.mp hr'
    obtain ⟨d, c, de, q, rfl, _⟩ := hshape row hrow
    rfl
  refine ⟨loadRows 4 (f.rows.map fun r => r.map renderCell), ?_, ?_, ?_⟩
  · rw [hsave, load_expenses_cons, hheader]
    simp only
    rw [hrows]
    simp only
    exact buildFrame_table (f.rows.map fun r => r.map renderCell) hshape4
  · unfold loadRows
    simp only [List.length_map]
  · unfold loadRows
    simp only [List.map_map]
    have hg3 : ((f.rows.map fun r => r.map renderCell).all fun r =>
        naLike (r.getD 3 []) || (parseNumber (r.getD 3 [])).isSome) = true := by
      rw [List.all_eq_true]
      intro r' hr'
      obtain ⟨row, hrow, rfl⟩ := List.mem_map.mp hr'
      obtain ⟨d, c, de, q, rfl, hq⟩ := hshape row hrow
      have : parseNumber (([Value.s d, .s c, .s de, .q q].map
          renderCell).getD 3 []) = some q := parseNumber_renderDec q hq
      rw [Bool.or_eq_true]
      right
      rw [this]
      rfl
    have hflag : ((List.range 4).map fun j =>
        (f.rows.map fun r => r.map renderCell).all fun r =>
          naLike (r.getD j []) || (parseNumber (r.getD j [])).isSome) =
        [((f.rows.map fun r => r.map renderCell).all fun r =>
            naLike (r.getD 0 []) || (parseNumber (r.getD 0 [])).isSome),
          ((f.rows.map fun r => r.map renderCell).all fun r =>
            naLike (r.getD 1 []) || (parseNumber (r.getD 1 [])).isSome),
          ((f.rows.map fun r => r.map renderCell).all fun r =>
            naLike (r.getD 2 []) || (parseNumber (r.getD 2 [])).isSome),
          ((f.rows.map fun r => r.map renderCell).all fun r =>
            naLike (r.getD 3 []) || (parseNumber (r.getD 3 [])).isSome)] := rfl
    rw [hflag, hg3]
    refine forall₂_map_self _ f.rows fun row hrow => ?_
    obtain ⟨d, c, de, q, rfl, hq⟩ := hshape row hrow
    constructor
    · rfl
    · intro q' hq'
      have hqq : q = q' := by
        have h2 : Value.q q = Value.q q' := hq'
        cases h2
        rfl
      subst hqq
      show loadCell true (renderDec q) = Value.q q
      exact loadCell_renderDec q hq

/-- C2 witness: the round-trip guarantees at a concrete two-record table,
one description containing the delimiter and one empty. -/
theorem save_load_roundtrip_witness :
    ∃ rows', load_expenses (some (save_expenses
        ⟨COLUMNS, [[.s "2024-01-05", .s "Food", .s "a,b", .q 10],
                   [.s "2024-01-20", .s "Food", .s "", .q 15]]⟩)) =
      Except.ok ⟨COLUMNS, rows'⟩ ∧
      rows'.length = ([[Value.s "2024-01-05", Value.s "Food", Value.s "a,b",
          Value.q 10], [Value.s "2024-01-20", Value.s "Food", Value.s "",
          Value.q 15]] : List (List Value)).length ∧
      List.Forall₂ (fun row row' => row'.length = 4 ∧
        ∀ q : ℚ, row.getD 3 .nan = .q q → row'.getD 3 .nan = .q q)
        [[Value.s "2024-01-05", Value.s "Food", Value.s "a,b", Value.q 10],
         [Value.s "2024-01-20", Value.s "Food", Value.s "", Value.q 15]] rows' :=
  save_load_roundtrip
    ⟨COLUMNS, [[.s "2024-01-05", .s "Food", .s "a,b", .q 10],
               [.s "2024-01-20", .s "Food", .s "", .q 15]]⟩ rfl (by decide)

end ExpenseTracker
